import Mathlib

/-!
Verification of the topology-to-filesystem materializer (`main.go`).

The Go program reads a container topology (JSON) and a global monitoring
configuration (YAML), and materializes one directory plus one `config.yaml`
per container, where each per-container configuration is derived from the
global one by filtering and deduplicating the global metric thresholds
against the `(EntityID, MetricID)` pairs appearing directly under the
container's graphs.

This file is a shallow embedding of that program:
* Go strings are modelled as Lean `String` (character lists where character
  level reasoning is needed);
* Go `*float64` threshold payload fields are modelled as `Option Rat` — the
  program performs no arithmetic on them, they are passenger data whose only
  relevant property is presence and value equality;
* the Go `map[string]MetricThreshold` is modelled as an association list in
  insertion order: every claim proved below about its contents is
  order-independent, matching Go's unspecified map iteration order;
* filesystem effects are modelled as an event trace, with an environment
  (`FsEnv`) deciding the success or failure of every attempted operation.
-/

set_option maxHeartbeats 1000000
set_option linter.unusedVariables false

namespace AmexTest

/-! ## Data model: JSON topology structures (`main.go` lines 14-44) -/

mutual

inductive Container : Type where
  | mk (parentEntityID : String) (containerName : String) (graphs : List Graph)

inductive Graph : Type where
  | mk (graphName : String) (graphMetadata : List GraphMeta)

inductive GraphMeta : Type where
  | mk (legendName : String) (entityID : String) (metricID : String)
       (metadataLayout : MetadataLayout)

inductive MetadataLayout : Type where
  | mk (containers : List Container)

end

def Container.parentEntityID : Container → String
  | .mk p _ _ => p

def Container.containerName : Container → String
  | .mk _ n _ => n

def Container.graphs : Container → List Graph
  | .mk _ _ gs => gs

def Graph.graphName : Graph → String
  | .mk n _ => n

def Graph.graphMetadata : Graph → List GraphMeta
  | .mk _ ms => ms

def GraphMeta.legendName : GraphMeta → String
  | .mk l _ _ _ => l

def GraphMeta.entityID : GraphMeta → String
  | .mk _ e _ _ => e

def GraphMeta.metricID : GraphMeta → String
  | .mk _ _ m _ => m

def GraphMeta.metadataLayout : GraphMeta → MetadataLayout
  | .mk _ _ _ l => l

def MetadataLayout.containers : MetadataLayout → List Container
  | .mk cs => cs

/-! ## Data model: YAML configuration structures (`main.go` lines 47-92) -/

structure Incident where
  severity : String
  enabled : Bool
  deriving DecidableEq

structure DefaultConfig where
  emailConfigName : String
  slackConfigName : String
  incidentSevTwoConfigName : String
  incidentSevThreeConfigName : String
  incidentSevFourConfigName : String
  incident : Incident
  deriving DecidableEq

structure EntityIDs where
  entityIds : List String
  deriving DecidableEq

/-- Go `MetricThreshold`.  `Min`/`Max` are `*float64` in Go: nullable numbers
on which the program does no arithmetic; they are modelled as `Option Rat`
(absence distinct from zero, decidable value equality). -/
structure MetricThreshold where
  entityID : String
  metricID : String
  parentEntityID : String
  containerName : String
  graphName : String
  legendName : String
  min : Option Rat
  max : Option Rat
  incident : String
  deriving DecidableEq

structure Entity where
  name : String
  id : String
  ignore : EntityIDs
  whitelist : EntityIDs
  metricThresholds : List MetricThreshold
  deriving DecidableEq

structure Source where
  defaultConfig : DefaultConfig
  entity : Entity
  deriving DecidableEq

structure Config where
  source : Source
  deriving DecidableEq

/-! ## Name sanitizer (`main.go` lines 171-178)

Go iterates over the nine reserved strings and applies
`strings.ReplaceAll(result, char, "_")` for each.  Every pattern is a single
ASCII character, so each `ReplaceAll` is exactly a character-wise
substitution; the fold below mirrors the Go loop over the `invalid` slice. -/

def invalidChars : List Char := ['/', '\\', ':', '*', '?', '"', '<', '>', '|']

/-- `strings.ReplaceAll(s, c, r)` for a single-character pattern `c`. -/
def replaceAllChar (s : List Char) (pat rep : Char) : List Char :=
  s.map (fun c => if c == pat then rep else c)

def sanitizeChars (name : List Char) : List Char :=
  invalidChars.foldl (fun result ch => replaceAllChar result ch '_') name

def sanitizeFolderName (name : String) : String :=
  (sanitizeChars name.data).asString

/-- The per-character effect of the sanitizer's fold. -/
def sanitizeChar (c : Char) : Char :=
  invalidChars.foldl (fun a ch => if a == ch then '_' else a) c

/-- Membership of a character in the reserved set. -/
def isReservedChar (c : Char) : Bool :=
  c == '/' || c == '\\' || c == ':' || c == '*' || c == '?' || c == '"' ||
    c == '<' || c == '>' || c == '|'

/-! ## Per-container configuration derivation (`main.go` lines 131-168) -/

/-- The Go deduplication key: `threshold.EntityID + "-" + threshold.MetricID`
(`main.go` line 151). -/
def thresholdKey (t : MetricThreshold) : String :=
  t.entityID ++ "-" ++ t.metricID

/-- The Go match test (`main.go` line 150):
`threshold.EntityID == meta.EntityID && threshold.MetricID == meta.MetricID`. -/
def matchesMeta (t : MetricThreshold) (m : GraphMeta) : Bool :=
  t.entityID == m.entityID && t.metricID == m.metricID

/-- The body of the innermost Go loop (`main.go` lines 150-157): if the
threshold matches the metadata entry and its key is not yet present, insert
it; otherwise leave the mapping unchanged. -/
def insertOne (meta : GraphMeta) (acc : List (String × MetricThreshold))
    (t : MetricThreshold) : List (String × MetricThreshold) :=
  if matchesMeta t meta then
    if (acc.find? (fun p => p.1 == thresholdKey t)).isSome then acc
    else acc ++ [(thresholdKey t, t)]
  else acc

/-- The innermost Go loop (`main.go` lines 149-158): for one `meta`, iterate
all global thresholds and insert first-match-wins under the concatenated
key.  The Go `map[string]MetricThreshold` is modelled as an association list
in insertion order. -/
def insertThresholds (thresholds : List MetricThreshold) (meta : GraphMeta)
    (acc : List (String × MetricThreshold)) : List (String × MetricThreshold) :=
  thresholds.foldl (insertOne meta) acc

/-- The two outer Go loops (`main.go` lines 147-160) building
`uniqueThresholds`. -/
def uniqueThresholds (config : Config) (container : Container) :
    List (String × MetricThreshold) :=
  container.graphs.foldl (fun acc graph =>
    graph.graphMetadata.foldl (fun acc meta =>
      insertThresholds config.source.entity.metricThresholds meta acc) acc) []

/-- `createContainerYaml` (`main.go` lines 131-168).  The final Go loop
appends the map's values in unspecified order; here they appear in insertion
order, and every property proved below about the result is
order-independent. -/
def createContainerYaml (config : Config) (container : Container) : Config :=
  { source :=
      { defaultConfig := config.source.defaultConfig
        entity :=
          { name := config.source.entity.name
            id := config.source.entity.id
            ignore := config.source.entity.ignore
            whitelist := config.source.entity.whitelist
            metricThresholds := (uniqueThresholds config container).map Prod.snd } } }

/-- The `GraphMeta` entries directly under a container's own graphs
(one level, no recursion into nested containers). -/
def oneLevelMetas (c : Container) : List GraphMeta :=
  c.graphs.flatMap Graph.graphMetadata

/-- The `(EntityID, MetricID)` pairs directly under a container's own graphs. -/
def oneLevelPairs (c : Container) : List (String × String) :=
  (oneLevelMetas c).map (fun m => (m.entityID, m.metricID))

/-! ## Filesystem traversal (`main.go` lines 95-128)

Paths are modelled as lists of path segments, with the empty list standing
for `"."` (the current directory), mirroring Go's relative paths as cleaned
by `filepath.Clean`.  Every attempted filesystem or serialization operation
is an `FsEvent`; an environment `FsEnv` decides, per operation, success
(`none`) or failure with an underlying cause.  A run returns the trace of
successfully performed events together with the error, if any, that aborted
it. -/

abbrev Path := List String

/-- `filepath.Join(base, seg)` for a single segment `seg` (sanitized names
contain no separator: `/` and `\` are replaced).  `Join` concatenates the
non-empty elements and runs `filepath.Clean` on the result, so on a base
path that is already clean: an empty or `"."` segment vanishes, a `".."`
segment pops the last segment (accumulating instead when the base consists
of leading `".."`s, as `Clean` keeps those in a relative path), and any
other segment is appended. -/
def joinPath (base : Path) (seg : String) : Path :=
  if seg = "" ∨ seg = "." then base
  else if seg = ".." then
    match base.getLast? with
    | some last => if last = ".." then base ++ [".."] else base.dropLast
    | none => [".."]
  else base ++ [seg]

/-- One attempted operation: `os.MkdirAll`, `yaml.Marshal` (carrying the raw
container name used by its error message), or `ioutil.WriteFile` (carrying
the serialized configuration as its value). -/
inductive FsEvent : Type where
  | mkdir (path : Path)
  | marshal (containerName : String) (config : Config)
  | write (path : Path) (config : Config)
  deriving DecidableEq

/-- The errors of `createStructureAndYaml`, each naming the failing path (or
container, for marshaling) and the underlying cause, as the Go `fmt.Errorf`
calls do (`main.go` lines 101, 108, 113). -/
inductive FsError : Type where
  | dirError (path : Path) (cause : String)
  | marshalError (containerName : String) (cause : String)
  | writeError (path : Path) (cause : String)
  deriving DecidableEq

abbrev FsEnv := FsEvent → Option String

/-- The error constructed when event `e` fails with `cause`. -/
def mkFsError (e : FsEvent) (cause : String) : FsError :=
  match e with
  | .mkdir p => .dirError p cause
  | .marshal n _ => .marshalError n cause
  | .write p _ => .writeError p cause

/-- Sequencing of two run results: if the first aborted, the second never
runs; otherwise the traces concatenate and the second's outcome stands. -/
def seqRun (a b : List FsEvent × Option FsError) : List FsEvent × Option FsError :=
  match a with
  | (evs, some e) => (evs, some e)
  | (evs, none) => (evs ++ b.1, b.2)

mutual

/-- `createStructureAndYaml` (`main.go` lines 95-128): the loop over a
container slice. -/
def createStructureAndYaml (env : FsEnv) (basePath : Path)
    (containers : List Container) (yamlConfig : Config) :
    List FsEvent × Option FsError :=
  match containers with
  | [] => ([], none)
  | c :: rest =>
    seqRun (runContainer env basePath c yamlConfig)
      (createStructureAndYaml env basePath rest yamlConfig)
termination_by sizeOf containers

/-- One iteration of the `createStructureAndYaml` loop body
(`main.go` lines 96-125). -/
def runContainer (env : FsEnv) (basePath : Path) (c : Container)
    (yamlConfig : Config) : List FsEvent × Option FsError :=
  match c with
  | .mk pid name graphs =>
    let currentPath := joinPath basePath (sanitizeFolderName name)
    match env (.mkdir currentPath) with
    | some cause => ([], some (.dirError currentPath cause))
    | none =>
      let containerYaml := createContainerYaml yamlConfig (.mk pid name graphs)
      match env (.marshal name containerYaml) with
      | some cause => ([.mkdir currentPath], some (.marshalError name cause))
      | none =>
        let yamlPath := currentPath ++ ["config.yaml"]
        match env (.write yamlPath containerYaml) with
        | some cause =>
            ([.mkdir currentPath, .marshal name containerYaml],
              some (.writeError yamlPath cause))
        | none =>
            seqRun
              ([.mkdir currentPath, .marshal name containerYaml,
                .write yamlPath containerYaml], none)
              (runGraphs env currentPath graphs yamlConfig)
termination_by sizeOf c

/-- The nested-container loop over a container's graphs
(`main.go` lines 117-125). -/
def runGraphs (env : FsEnv) (currentPath : Path) (graphs : List Graph)
    (yamlConfig : Config) : List FsEvent × Option FsError :=
  match graphs with
  | [] => ([], none)
  | .mk _ metas :: rest =>
    seqRun (runMetas env currentPath metas yamlConfig)
      (runGraphs env currentPath rest yamlConfig)
termination_by sizeOf graphs

/-- The loop over one graph's metadata (`main.go` lines 118-124): recurse
into the metadata's nested containers. -/
def runMetas (env : FsEnv) (currentPath : Path) (metas : List GraphMeta)
    (yamlConfig : Config) : List FsEvent × Option FsError :=
  match metas with
  | [] => ([], none)
  | .mk _ _ _ (.mk cs) :: rest =>
    seqRun
      (createStructureAndYaml env currentPath cs yamlConfig)
      (runMetas env currentPath rest yamlConfig)
termination_by sizeOf metas

end

/-! ## The specified pre-order trace

`preTraceContainers` follows the spec's traversal description (§4.2): for
each container in input order, create its directory, serialize and write its
configuration file, then visit its descendants; the run itself is compared
against this trace below. -/

mutual

def preTraceContainers (basePath : Path) (containers : List Container)
    (yamlConfig : Config) : List FsEvent :=
  match containers with
  | [] => []
  | c :: rest =>
    preTraceContainer basePath c yamlConfig ++
      preTraceContainers basePath rest yamlConfig
termination_by sizeOf containers

def preTraceContainer (basePath : Path) (c : Container) (yamlConfig : Config) :
    List FsEvent :=
  match c with
  | .mk pid name graphs =>
    let currentPath := joinPath basePath (sanitizeFolderName name)
    let containerYaml := createContainerYaml yamlConfig (.mk pid name graphs)
    [.mkdir currentPath, .marshal name containerYaml,
      .write (currentPath ++ ["config.yaml"]) containerYaml] ++
      preTraceGraphs currentPath graphs yamlConfig
termination_by sizeOf c

def preTraceGraphs (currentPath : Path) (graphs : List Graph)
    (yamlConfig : Config) : List FsEvent :=
  match graphs with
  | [] => []
  | .mk _ metas :: rest =>
    preTraceMetas currentPath metas yamlConfig ++
      preTraceGraphs currentPath rest yamlConfig
termination_by sizeOf graphs

def preTraceMetas (currentPath : Path) (metas : List GraphMeta)
    (yamlConfig : Config) : List FsEvent :=
  match metas with
  | [] => []
  | .mk _ _ _ (.mk cs) :: rest =>
    preTraceContainers currentPath cs yamlConfig ++
      preTraceMetas currentPath rest yamlConfig
termination_by sizeOf metas

end

/-- Cut a planned trace at the first event the environment fails: the first
component is the successfully performed events (everything strictly before
the first failure), the second the error built from the failing event. -/
def splitAtFailure (env : FsEnv) : List FsEvent → List FsEvent × Option FsError
  | [] => ([], none)
  | e :: rest =>
    match env e with
    | some cause => ([], some (mkFsError e cause))
    | none =>
      let r := splitAtFailure env rest
      (e :: r.1, r.2)

/-! ## Counting containers and events -/

mutual

def countContainers : List Container → Nat
  | [] => 0
  | c :: rest => countContainer c + countContainers rest
termination_by cs => sizeOf cs

def countContainer : Container → Nat
  | .mk _ _ graphs => 1 + countGraphs graphs
termination_by c => sizeOf c

def countGraphs : List Graph → Nat
  | [] => 0
  | .mk _ metas :: rest => countMetas metas + countGraphs rest
termination_by gs => sizeOf gs

def countMetas : List GraphMeta → Nat
  | [] => 0
  | .mk _ _ _ (.mk cs) :: rest => countContainers cs + countMetas rest
termination_by ms => sizeOf ms

end

def isMkdirEvent : FsEvent → Bool
  | .mkdir _ => true
  | _ => false

def isWriteEvent : FsEvent → Bool
  | .write _ _ => true
  | _ => false

/-- The always-succeeding environment. -/
def allOk : FsEnv := fun _ => none

/-! ## Derived notions used by the statements and proofs -/

def thrPair (t : MetricThreshold) : String × String := (t.entityID, t.metricID)

def metaPair (m : GraphMeta) : String × String := (m.entityID, m.metricID)

/-- All global thresholds that match some one-level metadata entry, in the
order the nested loops encounter them (metadata outer, global list inner). -/
def candidateThresholds (ths : List MetricThreshold) (metas : List GraphMeta) :
    List MetricThreshold :=
  metas.flatMap (fun m => ths.filter (fun t => matchesMeta t m))

/-- `insertAllMetas` is the loop nest over all one-level metadata entries. -/
def insertAllMetas (ths : List MetricThreshold) (metas : List GraphMeta)
    (acc : List (String × MetricThreshold)) : List (String × MetricThreshold) :=
  metas.foldl (fun acc meta => insertThresholds ths meta acc) acc

/-! ## Concrete sample data for witnesses and counterexamples -/

def sampleIncident : Incident := ⟨"sev2", true⟩

def sampleDefault : DefaultConfig :=
  ⟨"email", "slack", "cfg2", "cfg3", "cfg4", sampleIncident⟩

def mkThreshold (e m : String) (mn : Option Rat) : MetricThreshold :=
  ⟨e, m, "pe", "cn", "gn", "ln", mn, none, "inc"⟩

def mkConfig (ths : List MetricThreshold) : Config :=
  ⟨⟨sampleDefault, ⟨"ent", "id", ⟨["ig"]⟩, ⟨["wl"]⟩, ths⟩⟩⟩

/-- A threshold whose concatenated key `"a-b-c"` collides with
`cexThresholdA`'s although their pairs differ. -/
def cexThresholdX : MetricThreshold := mkThreshold "a-b" "c" none

def cexThresholdA : MetricThreshold := mkThreshold "a" "b-c" (some 0)

def cexThresholdB : MetricThreshold := mkThreshold "a" "b-c" (some 5)

def cexMeta1 : GraphMeta := .mk "l1" "a-b" "c" (.mk [])

def cexMeta2 : GraphMeta := .mk "l2" "a" "b-c" (.mk [])

def cexContainer : Container := .mk "p" "A" [.mk "g" [cexMeta1, cexMeta2]]

def cexConfig : Config := mkConfig [cexThresholdX, cexThresholdA]

def cexConfig3 : Config := mkConfig [cexThresholdX, cexThresholdA, cexThresholdB]

def smpThreshold1 : MetricThreshold := mkThreshold "e1" "m1" (some 1)

def smpThreshold2 : MetricThreshold := mkThreshold "e2" "m2" none

def smpMeta : GraphMeta := .mk "l" "e1" "m1" (.mk [])

def smpContainer : Container := .mk "p" "A" [.mk "g" [smpMeta]]

def smpConfig : Config := mkConfig [smpThreshold1, smpThreshold2]

/-- Two thresholds with the same pair, different payloads (spec §8's
deduplication example). -/
def dupThreshold1 : MetricThreshold := mkThreshold "e1" "m1" (some 0)

def dupThreshold2 : MetricThreshold := mkThreshold "e1" "m1" (some 5)

def dupMeta : GraphMeta := .mk "l" "e1" "m1" (.mk [])

/-- A container whose graphs reference the pair `(e1, m1)` twice. -/
def dupContainer : Container := .mk "p" "D" [.mk "g" [dupMeta, dupMeta]]

def dupConfig : Config := mkConfig [dupThreshold1, dupThreshold2]

/-- A childless container named `A`. -/
def cA : Container := .mk "p" "A" []

/-- A container named `B` with one nested child container. -/
def cB : Container :=
  .mk "p" "B" [.mk "g" [.mk "l" "e1" "m1" (.mk [.mk "pp" "BB" []])]]

/-- An environment in which creating the directory `base/B` fails. -/
def failEnv : FsEnv := fun e =>
  match e with
  | .mkdir p => if p = ["base", "B"] then some "disk full" else none
  | _ => none

/-- The events a run over `[cA, cB]` under `failEnv` performs before
aborting. -/
def c7evs : List FsEvent :=
  [.mkdir ["base", "A"], .marshal "A" (createContainerYaml smpConfig cA),
    .write ["base", "A", "config.yaml"] (createContainerYaml smpConfig cA)]

/-- A container whose display name is empty (it sanitizes to itself). -/
def emptyNameContainer : Container := .mk "p" "" []

/-! ## Central traversal lemmas -/

theorem splitAtFailure_append (env : FsEnv) (l₁ l₂ : List FsEvent) :
    splitAtFailure env (l₁ ++ l₂) =
      seqRun (splitAtFailure env l₁) (splitAtFailure env l₂) := by
  induction l₁ with
  | nil => simp [splitAtFailure, seqRun]
  | cons e rest ih =>
    simp only [List.cons_append, splitAtFailure]
    cases henv : env e with
    | some cause => rfl
    | none =>
      rcases h : splitAtFailure env rest with ⟨evs, r⟩
      rw [h] at ih
      cases r <;> simp [seqRun, List.append_eq, ih, h]

theorem splitAtFailure_allOk (l : List FsEvent) :
    splitAtFailure allOk l = (l, none) := by
  induction l with
  | nil => rfl
  | cons e rest ih => simp [splitAtFailure, allOk, ih]

mutual

/-- The run over a container list performs exactly the planned pre-order
trace cut at the first failing operation. -/
theorem createStructureAndYaml_eq_split (env : FsEnv) (b : Path)
    (cs : List Container) (cfg : Config) :
    createStructureAndYaml env b cs cfg =
      splitAtFailure env (preTraceContainers b cs cfg) := by
  match cs with
  | [] => simp [createStructureAndYaml, preTraceContainers, splitAtFailure]
  | c :: rest =>
    rw [createStructureAndYaml, preTraceContainers, splitAtFailure_append,
      runContainer_eq_split env b c cfg,
      createStructureAndYaml_eq_split env b rest cfg]
termination_by sizeOf cs

theorem runContainer_eq_split (env : FsEnv) (b : Path) (c : Container)
    (cfg : Config) :
    runContainer env b c cfg = splitAtFailure env (preTraceContainer b c cfg) := by
  match c with
  | .mk pid name graphs =>
    rw [runContainer, preTraceContainer]
    simp only [List.cons_append, List.nil_append, splitAtFailure]
    cases h1 : env (.mkdir (joinPath b (sanitizeFolderName name))) with
    | some cause => rfl
    | none =>
      cases h2 : env (.marshal name
          (createContainerYaml cfg (.mk pid name graphs))) with
      | some cause => rfl
      | none =>
        cases h3 : env (.write (joinPath b (sanitizeFolderName name) ++
            ["config.yaml"]) (createContainerYaml cfg (.mk pid name graphs))) with
        | some cause => rfl
        | none =>
          rw [runGraphs_eq_split env (joinPath b (sanitizeFolderName name))
            graphs cfg]
          simp [seqRun]
termination_by sizeOf c

theorem runGraphs_eq_split (env : FsEnv) (p : Path) (gs : List Graph)
    (cfg : Config) :
    runGraphs env p gs cfg = splitAtFailure env (preTraceGraphs p gs cfg) := by
  match gs with
  | [] => simp [runGraphs, preTraceGraphs, splitAtFailure]
  | .mk gname metas :: rest =>
    rw [runGraphs, preTraceGraphs, splitAtFailure_append,
      runMetas_eq_split env p metas cfg, runGraphs_eq_split env p rest cfg]
termination_by sizeOf gs

theorem runMetas_eq_split (env : FsEnv) (p : Path) (ms : List GraphMeta)
    (cfg : Config) :
    runMetas env p ms cfg = splitAtFailure env (preTraceMetas p ms cfg) := by
  match ms with
  | [] => simp [runMetas, preTraceMetas, splitAtFailure]
  | .mk l e m (.mk cs) :: rest =>
    rw [runMetas, preTraceMetas, splitAtFailure_append,
      createStructureAndYaml_eq_split env p cs cfg,
      runMetas_eq_split env p rest cfg]
termination_by sizeOf ms

end

mutual

theorem countP_preTraceContainers (b : Path) (cs : List Container)
    (cfg : Config) :
    (preTraceContainers b cs cfg).countP isMkdirEvent = countContainers cs ∧
    (preTraceContainers b cs cfg).countP isWriteEvent = countContainers cs := by
  match cs with
  | [] => simp [preTraceContainers, countContainers]
  | c :: rest =>
    have h1 := countP_preTraceContainer b c cfg
    have h2 := countP_preTraceContainers b rest cfg
    rw [preTraceContainers, countContainers]
    constructor
    · simp [List.countP_append, h1.1, h2.1]
    · simp [List.countP_append, h1.2, h2.2]
termination_by sizeOf cs

theorem countP_preTraceContainer (b : Path) (c : Container) (cfg : Config) :
    (preTraceContainer b c cfg).countP isMkdirEvent = countContainer c ∧
    (preTraceContainer b c cfg).countP isWriteEvent = countContainer c := by
  match c with
  | .mk pid name graphs =>
    have h1 := countP_preTraceGraphs (joinPath b (sanitizeFolderName name))
      graphs cfg
    rw [preTraceContainer, countContainer]
    constructor
    · simp [List.countP_append, List.countP_cons, isMkdirEvent, h1.1,
        Nat.add_comm]
    · simp [List.countP_append, List.countP_cons, isWriteEvent, h1.2,
        Nat.add_comm]
termination_by sizeOf c

theorem countP_preTraceGraphs (p : Path) (gs : List Graph) (cfg : Config) :
    (preTraceGraphs p gs cfg).countP isMkdirEvent = countGraphs gs ∧
    (preTraceGraphs p gs cfg).countP isWriteEvent = countGraphs gs := by
  match gs with
  | [] => simp [preTraceGraphs, countGraphs]
  | .mk gname metas :: rest =>
    have h1 := countP_preTraceMetas p metas cfg
    have h2 := countP_preTraceGraphs p rest cfg
    rw [preTraceGraphs, countGraphs]
    constructor
    · simp [List.countP_append, h1.1, h2.1]
    · simp [List.countP_append, h1.2, h2.2]
termination_by sizeOf gs

theorem countP_preTraceMetas (p : Path) (ms : List GraphMeta) (cfg : Config) :
    (preTraceMetas p ms cfg).countP isMkdirEvent = countMetas ms ∧
    (preTraceMetas p ms cfg).countP isWriteEvent = countMetas ms := by
  match ms with
  | [] => simp [preTraceMetas, countMetas]
  | .mk l e m (.mk cs) :: rest =>
    have h1 := countP_preTraceContainers p cs cfg
    have h2 := countP_preTraceMetas p rest cfg
    rw [preTraceMetas, countMetas]
    constructor
    · simp [List.countP_append, h1.1, h2.1]
    · simp [List.countP_append, h1.2, h2.2]
termination_by sizeOf ms

end

/-- Decomposition of a failed cut: the planned trace splits as the performed
events, the failing event, and the never-attempted remainder. -/
theorem splitAtFailure_some (env : FsEnv) (l : List FsEvent)
    (evs : List FsEvent) (err : FsError)
    (h : splitAtFailure env l = (evs, some err)) :
    ∃ failEv rest cause,
      l = evs ++ failEv :: rest ∧ (∀ ev ∈ evs, env ev = none) ∧
      env failEv = some cause ∧ err = mkFsError failEv cause := by
  induction l generalizing evs with
  | nil => simp [splitAtFailure] at h
  | cons e rest ih =>
    simp only [splitAtFailure] at h
    cases henv : env e with
    | some cause =>
      rw [henv] at h
      simp only [Prod.mk.injEq, Option.some.injEq] at h
      exact ⟨e, rest, cause, by simp [← h.1], by simp [← h.1],
        henv, h.2.symm⟩
    | none =>
      rw [henv] at h
      simp only [Prod.mk.injEq] at h
      rcases hsp : splitAtFailure env rest with ⟨evs', r⟩
      rw [hsp] at h
      cases r with
      | none => simp at h
      | some err' =>
        simp only [Option.some.injEq] at h
        obtain ⟨failEv, rest', cause, hdec, hok, hfail, herr⟩ :=
          ih evs' (by rw [hsp, h.2])
        refine ⟨failEv, rest', cause, ?_, ?_, hfail, herr⟩
        · rw [← h.1, hdec]; rfl
        · intro ev hev
          rw [← h.1] at hev
          rcases List.mem_cons.mp hev with rfl | hev
          · exact henv
          · exact hok ev hev

/-- Events performed by a cut run all come from the planned trace. -/
theorem mem_splitAtFailure_fst (env : FsEnv) (l : List FsEvent) (ev : FsEvent)
    (h : ev ∈ (splitAtFailure env l).1) : ev ∈ l := by
  induction l with
  | nil => simp [splitAtFailure] at h
  | cons e rest ih =>
    simp only [splitAtFailure] at h
    cases henv : env e with
    | some cause => rw [henv] at h; simp at h
    | none =>
      rw [henv] at h
      simp only [List.mem_cons] at h
      rcases h with rfl | h
      · exact List.mem_cons_self _ _
      · exact List.mem_cons_of_mem _ (ih h)

mutual

theorem write_mem_preTraceContainers (b : Path) (cs : List Container)
    (cfg : Config) (p : Path) (c' : Config)
    (h : FsEvent.write p c' ∈ preTraceContainers b cs cfg) :
    ∃ cc, c' = createContainerYaml cfg cc := by
  match cs with
  | [] => simp [preTraceContainers] at h
  | c :: rest =>
    rw [preTraceContainers] at h
    rcases List.mem_append.mp h with h | h
    · exact write_mem_preTraceContainer b c cfg p c' h
    · exact write_mem_preTraceContainers b rest cfg p c' h
termination_by sizeOf cs

theorem write_mem_preTraceContainer (b : Path) (c : Container) (cfg : Config)
    (p : Path) (c' : Config)
    (h : FsEvent.write p c' ∈ preTraceContainer b c cfg) :
    ∃ cc, c' = createContainerYaml cfg cc := by
  match c with
  | .mk pid name graphs =>
    rw [preTraceContainer] at h
    simp only [List.cons_append, List.nil_append, List.mem_cons] at h
    rcases h with h | h | h | h
    · exact absurd h (by simp)
    · exact absurd h (by simp)
    · refine ⟨.mk pid name graphs, ?_⟩
      injection h with h1 h2
    · exact write_mem_preTraceGraphs (joinPath b (sanitizeFolderName name))
        graphs cfg p c' h
termination_by sizeOf c

theorem write_mem_preTraceGraphs (q : Path) (gs : List Graph) (cfg : Config)
    (p : Path) (c' : Config)
    (h : FsEvent.write p c' ∈ preTraceGraphs q gs cfg) :
    ∃ cc, c' = createContainerYaml cfg cc := by
  match gs with
  | [] => simp [preTraceGraphs] at h
  | .mk gname metas :: rest =>
    rw [preTraceGraphs] at h
    rcases List.mem_append.mp h with h | h
    · exact write_mem_preTraceMetas q metas cfg p c' h
    · exact write_mem_preTraceGraphs q rest cfg p c' h
termination_by sizeOf gs

theorem write_mem_preTraceMetas (q : Path) (ms : List GraphMeta) (cfg : Config)
    (p : Path) (c' : Config)
    (h : FsEvent.write p c' ∈ preTraceMetas q ms cfg) :
    ∃ cc, c' = createContainerYaml cfg cc := by
  match ms with
  | [] => simp [preTraceMetas] at h
  | .mk l e m (.mk cs) :: rest =>
    rw [preTraceMetas] at h
    rcases List.mem_append.mp h with h | h
    · exact write_mem_preTraceContainers q cs cfg p c' h
    · exact write_mem_preTraceMetas q rest cfg p c' h
termination_by sizeOf ms

end

/-! ## Sanitizer lemmas -/

theorem foldl_replaceAllChar (ps : List Char) (s : List Char) :
    ps.foldl (fun r ch => replaceAllChar r ch '_') s =
      s.map (fun c => ps.foldl (fun a ch => if a == ch then '_' else a) c) := by
  induction ps generalizing s with
  | nil => simp
  | cons p ps ih =>
    rw [List.foldl_cons, ih (replaceAllChar s p '_'), replaceAllChar,
      List.map_map]
    rfl

theorem sanitizeChars_eq_map (s : List Char) :
    sanitizeChars s = s.map sanitizeChar := by
  unfold sanitizeChars sanitizeChar
  exact foldl_replaceAllChar invalidChars s

/-- The sanitizer's fold acts on each character as: reserved characters
become `_`, everything else is unchanged. -/
theorem sanitizeChar_eq (c : Char) :
    sanitizeChar c = if isReservedChar c then '_' else c := by
  by_cases h1 : c = '/'
  · subst h1; decide
  by_cases h2 : c = '\\'
  · subst h2; decide
  by_cases h3 : c = ':'
  · subst h3; decide
  by_cases h4 : c = '*'
  · subst h4; decide
  by_cases h5 : c = '?'
  · subst h5; decide
  by_cases h6 : c = '"'
  · subst h6; decide
  by_cases h7 : c = '<'
  · subst h7; decide
  by_cases h8 : c = '>'
  · subst h8; decide
  by_cases h9 : c = '|'
  · subst h9; decide
  simp [sanitizeChar, invalidChars, isReservedChar, h1, h2, h3, h4, h5, h6,
    h7, h8, h9]

theorem sanitizeChar_not_reserved (c : Char) :
    isReservedChar (sanitizeChar c) = false := by
  rw [sanitizeChar_eq]
  by_cases h : isReservedChar c
  · simp [h]
    decide
  · simp [h]

theorem sanitizeChar_idem (c : Char) :
    sanitizeChar (sanitizeChar c) = sanitizeChar c := by
  rw [sanitizeChar_eq (sanitizeChar c), sanitizeChar_not_reserved]
  simp

theorem asString_data (l : List Char) : l.asString.data = l := rfl

theorem sanitizeFolderName_data (s : String) :
    (sanitizeFolderName s).data = s.data.map sanitizeChar := by
  rw [sanitizeFolderName, asString_data, sanitizeChars_eq_map]

theorem sanitizeFolderName_length (s : String) :
    (sanitizeFolderName s).length = s.length := by
  show (sanitizeFolderName s).data.length = s.data.length
  rw [sanitizeFolderName_data, List.length_map]

/-! ## Deduplication lemmas -/

theorem matchesMeta_iff (t : MetricThreshold) (m : GraphMeta) :
    matchesMeta t m = true ↔ thrPair t = metaPair m := by
  simp [matchesMeta, thrPair, metaPair, Bool.and_eq_true, Prod.ext_iff]

theorem thresholdKey_congr {t u : MetricThreshold} (h : thrPair t = thrPair u) :
    thresholdKey t = thresholdKey u := by
  simp only [thrPair, Prod.mk.injEq] at h
  simp [thresholdKey, h.1, h.2]

theorem opt_map_or {α β : Type} (f : α → β) (a b : Option α) :
    (a.or b).map f = (a.map f).or (b.map f) := by
  cases a <;> rfl

theorem opt_or_of_isSome {α : Type} {a : Option α} (b : Option α)
    (h : a.isSome) : a.or b = a := by
  cases a with
  | none => simp at h
  | some v => rfl

theorem candidateThresholds_cons (ths : List MetricThreshold) (m : GraphMeta)
    (metas : List GraphMeta) :
    candidateThresholds ths (m :: metas) =
      ths.filter (fun t => matchesMeta t m) ++ candidateThresholds ths metas := by
  simp [candidateThresholds]

theorem insertAllMetas_append (ths : List MetricThreshold)
    (ms₁ ms₂ : List GraphMeta) (acc : List (String × MetricThreshold)) :
    insertAllMetas ths (ms₁ ++ ms₂) acc =
      insertAllMetas ths ms₂ (insertAllMetas ths ms₁ acc) := by
  simp [insertAllMetas, List.foldl_append]

theorem uniqueThresholds_eq_insertAllMetas (cfg : Config) (c : Container) :
    uniqueThresholds cfg c =
      insertAllMetas cfg.source.entity.metricThresholds (oneLevelMetas c) [] := by
  rw [uniqueThresholds, oneLevelMetas]
  generalize hacc : ([] : List (String × MetricThreshold)) = acc
  clear hacc
  induction c.graphs generalizing acc with
  | nil => simp [insertAllMetas]
  | cons g gs ih =>
    rw [List.foldl_cons, List.flatMap_cons, insertAllMetas_append, ← ih]
    rfl

/-- Every entry of the deduplication mapping is keyed by its threshold's
concatenated key, comes from the supplied threshold list, and matched the
metadata entry at which it was inserted. -/
theorem mem_insertThresholds (ths : List MetricThreshold) (meta : GraphMeta)
    (acc : List (String × MetricThreshold)) (p : String × MetricThreshold)
    (h : p ∈ insertThresholds ths meta acc) :
    p ∈ acc ∨ (p.1 = thresholdKey p.2 ∧ p.2 ∈ ths ∧ matchesMeta p.2 meta = true) := by
  induction ths generalizing acc with
  | nil => exact .inl h
  | cons t ths ih =>
    rw [insertThresholds, List.foldl_cons] at h
    rcases ih (insertOne meta acc t) h with h | ⟨h1, h2, h3⟩
    · rw [insertOne] at h
      by_cases hm : matchesMeta t meta
      · rw [if_pos hm] at h
        by_cases hs : (acc.find? (fun p => p.1 == thresholdKey t)).isSome
        · rw [if_pos hs] at h
          exact .inl h
        · rw [if_neg hs] at h
          rcases List.mem_append.mp h with h | h
          · exact .inl h
          · simp only [List.mem_singleton] at h
            subst h
            exact .inr ⟨rfl, List.mem_cons_self _ _, hm⟩
      · rw [if_neg hm] at h
        exact .inl h
    · exact .inr ⟨h1, List.mem_cons_of_mem _ h2, h3⟩

theorem mem_insertAllMetas (ths : List MetricThreshold) (metas : List GraphMeta)
    (acc : List (String × MetricThreshold)) (p : String × MetricThreshold)
    (h : p ∈ insertAllMetas ths metas acc) :
    p ∈ acc ∨ (p.1 = thresholdKey p.2 ∧ p.2 ∈ ths ∧
      ∃ m ∈ metas, matchesMeta p.2 m = true) := by
  induction metas generalizing acc with
  | nil => exact .inl h
  | cons m metas ih =>
    rw [insertAllMetas, List.foldl_cons] at h
    rcases ih (insertThresholds ths m acc) h with h | ⟨h1, h2, m', hm', h3⟩
    · rcases mem_insertThresholds ths m acc p h with h | ⟨h1, h2, h3⟩
      · exact .inl h
      · exact .inr ⟨h1, h2, m, List.mem_cons_self _ _, h3⟩
    · exact .inr ⟨h1, h2, m', List.mem_cons_of_mem _ hm', h3⟩

/-- Inserting never duplicates a key. -/
theorem nodup_keys_insertThresholds (ths : List MetricThreshold)
    (meta : GraphMeta) (acc : List (String × MetricThreshold))
    (h : (acc.map Prod.fst).Nodup) :
    ((insertThresholds ths meta acc).map Prod.fst).Nodup := by
  induction ths generalizing acc with
  | nil => exact h
  | cons t ths ih =>
    rw [insertThresholds, List.foldl_cons]
    refine ih (insertOne meta acc t) ?_
    rw [insertOne]
    by_cases hm : matchesMeta t meta
    · rw [if_pos hm]
      by_cases hs : (acc.find? (fun p => p.1 == thresholdKey t)).isSome
      · rw [if_pos hs]; exact h
      · rw [if_neg hs]
        rw [Option.not_isSome_iff_eq_none, List.find?_eq_none] at hs
        rw [List.map_append, List.map_singleton]
        rw [List.nodup_append]
        refine ⟨h, List.nodup_singleton _, ?_⟩
        rw [List.disjoint_singleton]
        intro hmem
        rcases List.mem_map.mp hmem with ⟨q, hq, hq1⟩
        exact hs q hq (by simp [hq1])
    · rw [if_neg hm]; exact h

theorem nodup_keys_insertAllMetas (ths : List MetricThreshold)
    (metas : List GraphMeta) (acc : List (String × MetricThreshold))
    (h : (acc.map Prod.fst).Nodup) :
    ((insertAllMetas ths metas acc).map Prod.fst).Nodup := by
  induction metas generalizing acc with
  | nil => exact h
  | cons m metas ih =>
    rw [insertAllMetas, List.foldl_cons]
    exact ih _ (nodup_keys_insertThresholds ths m acc h)

/-- First-match-wins, for one metadata entry: looking up key `k` after the
inner loop finds what was already there, or else the first matching
threshold whose key is `k`. -/
theorem find?_insertThresholds (ths : List MetricThreshold) (meta : GraphMeta)
    (acc : List (String × MetricThreshold)) (k : String) :
    (insertThresholds ths meta acc).find? (fun p => p.1 == k) =
      (acc.find? (fun p => p.1 == k)).or
        (((ths.filter (fun t => matchesMeta t meta)).find?
          (fun t => thresholdKey t == k)).map (fun t => (thresholdKey t, t))) := by
  induction ths generalizing acc with
  | nil => simp [insertThresholds]
  | cons t ths ih =>
    rw [insertThresholds, List.foldl_cons]
    show (insertThresholds ths meta (insertOne meta acc t)).find? _ = _
    rw [ih (insertOne meta acc t), insertOne, List.filter_cons]
    by_cases hm : matchesMeta t meta
    · rw [if_pos hm, if_pos hm, List.find?_cons]
      by_cases hk : thresholdKey t = k
      · have hkb : (thresholdKey t == k) = true := by simp [hk]
        rw [hkb]
        by_cases hs : (acc.find? (fun p => p.1 == thresholdKey t)).isSome
        · rw [if_pos hs]
          have hs' : (acc.find? (fun p => p.1 == k)).isSome := by rwa [hk] at hs
          rw [opt_or_of_isSome _ hs', opt_or_of_isSome _ hs']
        · rw [if_neg hs]
          rw [Option.not_isSome_iff_eq_none] at hs
          have hsk : acc.find? (fun p => p.1 == k) = none := by rwa [hk] at hs
          rw [List.find?_append, hsk]
          have hone : ([(thresholdKey t, t)].find? (fun p => p.1 == k)) =
              some (thresholdKey t, t) := by
            simp [List.find?_cons, hkb]
          rw [hone]
          rfl
      · have hkb : (thresholdKey t == k) = false := by simp [hk]
        rw [hkb]
        by_cases hs : (acc.find? (fun p => p.1 == thresholdKey t)).isSome
        · rw [if_pos hs]
        · rw [if_neg hs]
          rw [List.find?_append]
          have hone : ([(thresholdKey t, t)].find? (fun p => p.1 == k)) = none := by
            simp [List.find?_cons, hkb]
          rw [hone, Option.or_none]
    · rw [if_neg hm, if_neg hm]

theorem find?_insertAllMetas (ths : List MetricThreshold)
    (metas : List GraphMeta) (acc : List (String × MetricThreshold)) (k : String) :
    (insertAllMetas ths metas acc).find? (fun p => p.1 == k) =
      (acc.find? (fun p => p.1 == k)).or
        (((candidateThresholds ths metas).find? (fun t => thresholdKey t == k)).map
          (fun t => (thresholdKey t, t))) := by
  induction metas generalizing acc with
  | nil => simp [insertAllMetas, candidateThresholds]
  | cons m metas ih =>
    rw [insertAllMetas, List.foldl_cons]
    show (insertAllMetas ths metas (insertThresholds ths m acc)).find? _ = _
    rw [ih (insertThresholds ths m acc), find?_insertThresholds,
      Option.or_assoc, candidateThresholds_cons, List.find?_append, opt_map_or]

theorem mem_uniqueThresholds (cfg : Config) (c : Container)
    (p : String × MetricThreshold) (h : p ∈ uniqueThresholds cfg c) :
    p.1 = thresholdKey p.2 ∧ p.2 ∈ cfg.source.entity.metricThresholds ∧
      ∃ m ∈ oneLevelMetas c, matchesMeta p.2 m = true := by
  rw [uniqueThresholds_eq_insertAllMetas] at h
  rcases mem_insertAllMetas _ _ _ _ h with h | h
  · simp at h
  · exact h

theorem nodup_keys_uniqueThresholds (cfg : Config) (c : Container) :
    ((uniqueThresholds cfg c).map Prod.fst).Nodup := by
  rw [uniqueThresholds_eq_insertAllMetas]
  exact nodup_keys_insertAllMetas _ _ _ (by simp)

theorem find?_uniqueThresholds (cfg : Config) (c : Container) (k : String) :
    (uniqueThresholds cfg c).find? (fun p => p.1 == k) =
      ((candidateThresholds cfg.source.entity.metricThresholds
        (oneLevelMetas c)).find? (fun t => thresholdKey t == k)).map
        (fun t => (thresholdKey t, t)) := by
  rw [uniqueThresholds_eq_insertAllMetas, find?_insertAllMetas]
  simp

/-- Two entries of the deduplication mapping with the same key are the same
entry. -/
theorem uniqueThresholds_eq_of_same_key (cfg : Config) (c : Container)
    {p q : String × MetricThreshold} (hp : p ∈ uniqueThresholds cfg c)
    (hq : q ∈ uniqueThresholds cfg c) (hk : p.1 = q.1) : p = q := by
  by_contra hne
  have hnd := nodup_keys_uniqueThresholds cfg c
  rw [List.Nodup, List.pairwise_map] at hnd
  exact hnd.forall (fun a b h => fun e => h e.symm) hp hq hne hk

theorem find?_congr_mem {α : Type} (l : List α) (p q : α → Bool)
    (h : ∀ x ∈ l, p x = q x) : l.find? p = l.find? q := by
  induction l with
  | nil => rfl
  | cons a l ih =>
    rw [List.find?_cons, List.find?_cons, h a (List.mem_cons_self a l),
      ih (fun x hx => h x (List.mem_cons_of_mem a hx))]

theorem find?_filter_self {α : Type} (l : List α) (p : α → Bool) :
    (l.filter p).find? p = l.find? p := by
  induction l with
  | nil => rfl
  | cons a l ih =>
    rw [List.filter_cons]
    by_cases hp : p a
    · rw [if_pos hp, List.find?_cons, List.find?_cons, hp]
    · have hp' : p a = false := by simpa using hp
      rw [if_neg (by simp [hp']), List.find?_cons, hp', ih]

/-- If two metadata entries carry the same pair, the same thresholds match
them. -/
theorem matchesMeta_congr {m m' : GraphMeta} (h : metaPair m = metaPair m')
    (t : MetricThreshold) : matchesMeta t m = matchesMeta t m' := by
  simp only [metaPair, Prod.mk.injEq] at h
  simp [matchesMeta, h.1, h.2]

/-- Scanning the candidate list for the thresholds matching the pair of a
referenced metadata entry finds exactly the first matching threshold of the
global list. -/
theorem find?_candidateThresholds (ths : List MetricThreshold)
    (metas : List GraphMeta) (t0 : MetricThreshold) (m0 : GraphMeta)
    (ht0 : t0 ∈ ths) (hmatch : matchesMeta t0 m0 = true)
    (hex : ∃ m ∈ metas, metaPair m = metaPair m0) :
    (candidateThresholds ths metas).find? (fun t => matchesMeta t m0) =
      ths.find? (fun t => matchesMeta t m0) := by
  induction metas with
  | nil => simp at hex
  | cons m metas ih =>
    rw [candidateThresholds_cons, List.find?_append]
    by_cases hpm : metaPair m = metaPair m0
    · have hfilter : ths.filter (fun t => matchesMeta t m) =
          ths.filter (fun t => matchesMeta t m0) := by
        apply List.filter_congr
        intro t _
        exact matchesMeta_congr hpm t
      rw [hfilter, find?_filter_self]
      refine opt_or_of_isSome _ ?_
      rw [List.find?_isSome]
      exact ⟨t0, ht0, hmatch⟩
    · have hnone : (ths.filter (fun t => matchesMeta t m)).find?
          (fun t => matchesMeta t m0) = none := by
        rw [List.find?_eq_none]
        intro t htm htm0
        rcases List.mem_filter.mp htm with ⟨_, htm⟩
        exact hpm (((matchesMeta_iff t m).mp htm).symm.trans
          ((matchesMeta_iff t m0).mp htm0))
      rw [hnone, Option.none_or]
      refine ih ?_
      rcases hex with ⟨m', hm', hpm'⟩
      rcases List.mem_cons.mp hm' with rfl | hm'
      · exact absurd hpm' hpm
      · exact ⟨m', hm', hpm'⟩

/-! ## Claims C1-C4: the derived threshold set -/

/-- C1 counterexample: the claim "every global threshold whose
`(EntityID, MetricID)` pair matches a `GraphMeta` directly under the
container's graphs contributes an entry for its pair" is false.  The
container references both `("a-b","c")` and `("a","b-c")`; the global list
holds a matching threshold for each; both pairs concatenate to the key
`"a-b-c"`, so the second match is dropped and the derived configuration
contains no entry at all for the referenced and matched pair
`("a","b-c")`. -/
theorem claim_C1_counterexample :
    ("a", "b-c") ∈ oneLevelPairs cexContainer ∧
    (∃ t ∈ cexConfig.source.entity.metricThresholds,
      t.entityID = "a" ∧ t.metricID = "b-c") ∧
    ∀ t ∈ (createContainerYaml cexConfig cexContainer).source.entity.metricThresholds,
      ¬(t.entityID = "a" ∧ t.metricID = "b-c") := by
  decide

/-- C1 (amended): every element of the derived `Entity.MetricThresholds` is
a global threshold whose pair equals the pair of some `GraphMeta` directly
under the container's own graphs; and for every such directly referenced
pair that some global threshold matches, the derived list contains an entry
with the same concatenated key `EntityID ++ "-" ++ MetricID` (pairs whose
concatenated keys collide are conflated by the Go map's string key, so
per-key, not per-pair, completeness is what holds). -/
theorem claim_C1_amended (cfg : Config) (c : Container) :
    (∀ t ∈ (createContainerYaml cfg c).source.entity.metricThresholds,
      t ∈ cfg.source.entity.metricThresholds ∧
        ∃ m ∈ oneLevelMetas c, t.entityID = m.entityID ∧ t.metricID = m.metricID) ∧
    (∀ m ∈ oneLevelMetas c, ∀ t ∈ cfg.source.entity.metricThresholds,
      t.entityID = m.entityID → t.metricID = m.metricID →
      ∃ u ∈ (createContainerYaml cfg c).source.entity.metricThresholds,
        thresholdKey u = thresholdKey t) := by
  constructor
  · intro t ht
    have ht' : t ∈ (uniqueThresholds cfg c).map Prod.snd := ht
    rcases List.mem_map.mp ht' with ⟨p, hp, rfl⟩
    obtain ⟨_, hths, m, hm, hmatch⟩ := mem_uniqueThresholds cfg c p hp
    have hpq := (matchesMeta_iff p.2 m).mp hmatch
    simp only [thrPair, metaPair, Prod.mk.injEq] at hpq
    exact ⟨hths, m, hm, hpq.1, hpq.2⟩
  · intro m hm t hths he hmi
    have hmatch : matchesMeta t m = true := by
      rw [matchesMeta_iff]
      simp [thrPair, metaPair, he, hmi]
    have hcand : t ∈ candidateThresholds cfg.source.entity.metricThresholds
        (oneLevelMetas c) :=
      List.mem_flatMap.mpr ⟨m, hm, List.mem_filter.mpr ⟨hths, hmatch⟩⟩
    have hsome : ((candidateThresholds cfg.source.entity.metricThresholds
        (oneLevelMetas c)).find? (fun x => thresholdKey x == thresholdKey t)).isSome := by
      rw [List.find?_isSome]
      exact ⟨t, hcand, by simp⟩
    obtain ⟨t', ht'⟩ := Option.isSome_iff_exists.mp hsome
    have hkey : thresholdKey t' = thresholdKey t := by
      have := List.find?_some ht'
      simpa using this
    have hfind : (uniqueThresholds cfg c).find? (fun p => p.1 == thresholdKey t) =
        some (thresholdKey t', t') := by
      rw [find?_uniqueThresholds, ht']
      rfl
    have hmem := List.mem_of_find?_eq_some hfind
    exact ⟨t', List.mem_map.mpr ⟨(thresholdKey t', t'), hmem, rfl⟩, hkey⟩

/-- C1 witness: the amended claim evaluated at a concrete configuration and
container. -/
theorem claim_C1_amended_witness :
    (∀ t ∈ (createContainerYaml smpConfig smpContainer).source.entity.metricThresholds,
      t ∈ smpConfig.source.entity.metricThresholds ∧
        ∃ m ∈ oneLevelMetas smpContainer,
          t.entityID = m.entityID ∧ t.metricID = m.metricID) ∧
    (∀ m ∈ oneLevelMetas smpContainer,
      ∀ t ∈ smpConfig.source.entity.metricThresholds,
      t.entityID = m.entityID → t.metricID = m.metricID →
      ∃ u ∈ (createContainerYaml smpConfig smpContainer).source.entity.metricThresholds,
        thresholdKey u = thresholdKey t) :=
  claim_C1_amended smpConfig smpContainer

/-- C2: the derived threshold list contains at most one entry per distinct
`(EntityID, MetricID)` pair, whatever duplicates the global list or the
container's graph metadata contain. -/
theorem claim_C2_dedup (cfg : Config) (c : Container) :
    List.Pairwise (fun a b => ¬(a.entityID = b.entityID ∧ a.metricID = b.metricID))
      (createContainerYaml cfg c).source.entity.metricThresholds := by
  show List.Pairwise _ ((uniqueThresholds cfg c).map Prod.snd)
  rw [List.pairwise_map]
  have hnd := nodup_keys_uniqueThresholds cfg c
  rw [List.Nodup, List.pairwise_map] at hnd
  refine List.Pairwise.imp_of_mem ?_ hnd
  intro p q hp hq hne hpq
  obtain ⟨hpk, _, _⟩ := mem_uniqueThresholds cfg c p hp
  obtain ⟨hqk, _, _⟩ := mem_uniqueThresholds cfg c q hq
  refine hne ?_
  rw [hpk, hqk]
  exact thresholdKey_congr (by simp [thrPair, hpq.1, hpq.2])

/-- C2 witness: the deduplication claim evaluated on the spec §8 example
(two global thresholds with the same key, a container referencing the pair
twice). -/
theorem claim_C2_dedup_witness :
    List.Pairwise (fun a b => ¬(a.entityID = b.entityID ∧ a.metricID = b.metricID))
      (createContainerYaml dupConfig dupContainer).source.entity.metricThresholds :=
  claim_C2_dedup dupConfig dupContainer

/-- C3 counterexample: with several global thresholds carrying pair
`("a","b-c")` and that pair matched by the container's second metadata
entry, the claim says the derived configuration retains the first of them
for that pair; in fact, because the colliding key `"a-b-c"` was already
taken by the threshold with pair `("a-b","c")`, the derived configuration
holds no entry with pair `("a","b-c")` at all. -/
theorem claim_C3_counterexample :
    cexThresholdA ∈ cexConfig3.source.entity.metricThresholds ∧
    cexThresholdB ∈ cexConfig3.source.entity.metricThresholds ∧
    cexThresholdA ≠ cexThresholdB ∧
    thrPair cexThresholdA = ("a", "b-c") ∧
    thrPair cexThresholdB = ("a", "b-c") ∧
    (∃ m ∈ oneLevelMetas cexContainer, metaPair m = ("a", "b-c")) ∧
    ∀ t ∈ (createContainerYaml cexConfig3 cexContainer).source.entity.metricThresholds,
      thrPair t ≠ ("a", "b-c") := by
  decide

/-- C3 (amended): when a global threshold `t0` matches a directly referenced
metadata entry `m0`, and no other matching threshold shares `t0`'s
concatenated key with a different pair (no key collision), then the entry
the derived configuration retains is exactly the first threshold of the
global list matching `m0`'s pair, and every other match for that key is
dropped: any derived entry with that pair is that first one. -/
theorem claim_C3_amended (cfg : Config) (c : Container) (t0 : MetricThreshold)
    (m0 : GraphMeta) (ht0 : t0 ∈ cfg.source.entity.metricThresholds)
    (hm0 : m0 ∈ oneLevelMetas c) (hmatch : matchesMeta t0 m0 = true)
    (hnc : ∀ m ∈ oneLevelMetas c, ∀ t ∈ cfg.source.entity.metricThresholds,
      matchesMeta t m = true → thresholdKey t = thresholdKey t0 →
      thrPair t = thrPair t0) :
    ∃ t', cfg.source.entity.metricThresholds.find? (fun t => matchesMeta t m0) =
        some t' ∧
      t' ∈ (createContainerYaml cfg c).source.entity.metricThresholds ∧
      ∀ u ∈ (createContainerYaml cfg c).source.entity.metricThresholds,
        thrPair u = thrPair t0 → u = t' := by
  have hpair0 : thrPair t0 = metaPair m0 := (matchesMeta_iff t0 m0).mp hmatch
  have hagree : ∀ x ∈ candidateThresholds cfg.source.entity.metricThresholds
      (oneLevelMetas c),
      (thresholdKey x == thresholdKey t0) = matchesMeta x m0 := by
    intro x hx
    rcases List.mem_flatMap.mp hx with ⟨m, hm, hxf⟩
    rcases List.mem_filter.mp hxf with ⟨hxths, hxm⟩
    by_cases hk : thresholdKey x = thresholdKey t0
    · have hp := hnc m hm x hxths hxm hk
      have hq : matchesMeta x m0 = true := by
        rw [matchesMeta_iff, hp, hpair0]
      simp [hk, hq]
    · have hq : matchesMeta x m0 = false := by
        by_contra hcon
        have hxq : matchesMeta x m0 = true := by simpa using hcon
        have hp : thrPair x = thrPair t0 :=
          ((matchesMeta_iff x m0).mp hxq).trans hpair0.symm
        exact hk (thresholdKey_congr hp)
      simp [hk, hq]
  have hfind : (uniqueThresholds cfg c).find? (fun p => p.1 == thresholdKey t0) =
      (cfg.source.entity.metricThresholds.find? (fun t => matchesMeta t m0)).map
        (fun t => (thresholdKey t, t)) := by
    rw [find?_uniqueThresholds, find?_congr_mem _ _ _ hagree,
      find?_candidateThresholds cfg.source.entity.metricThresholds
        (oneLevelMetas c) t0 m0 ht0 hmatch ⟨m0, hm0, rfl⟩]
  have hsome : (cfg.source.entity.metricThresholds.find?
      (fun t => matchesMeta t m0)).isSome := by
    rw [List.find?_isSome]
    exact ⟨t0, ht0, hmatch⟩
  obtain ⟨t', ht'⟩ := Option.isSome_iff_exists.mp hsome
  have hfind' : (uniqueThresholds cfg c).find? (fun p => p.1 == thresholdKey t0) =
      some (thresholdKey t', t') := by
    rw [hfind, ht']
    rfl
  have hmem' := List.mem_of_find?_eq_some hfind'
  have hkt' : thresholdKey t' = thresholdKey t0 := by
    have hq := List.find?_some ht'
    exact thresholdKey_congr (((matchesMeta_iff t' m0).mp hq).trans hpair0.symm)
  refine ⟨t', ht', List.mem_map.mpr ⟨(thresholdKey t', t'), hmem', rfl⟩, ?_⟩
  intro u hu hup
  have hu' : u ∈ (uniqueThresholds cfg c).map Prod.snd := hu
  rcases List.mem_map.mp hu' with ⟨p, hp, hpu⟩
  obtain ⟨hpk, _, _⟩ := mem_uniqueThresholds cfg c p hp
  have hku : thresholdKey p.2 = thresholdKey t0 := by
    rw [hpu]
    exact thresholdKey_congr hup
  have hpe : p = (thresholdKey t', t') :=
    uniqueThresholds_eq_of_same_key cfg c hp hmem' (by rw [hpk, hku, hkt'])
  rw [← hpu, hpe]

theorem dupMeta_mem : dupMeta ∈ oneLevelMetas dupContainer := by
  simp [oneLevelMetas, dupContainer, Container.graphs, Graph.graphMetadata]

/-- C3 witness: the amended claim evaluated on the spec §8 deduplication
example, where no key collision occurs: the retained entry is the first of
the two same-pair thresholds. -/
theorem claim_C3_amended_witness :
    dupThreshold1 ∈ dupConfig.source.entity.metricThresholds ∧
    dupMeta ∈ oneLevelMetas dupContainer ∧
    matchesMeta dupThreshold1 dupMeta = true ∧
    (∀ m ∈ oneLevelMetas dupContainer,
      ∀ t ∈ dupConfig.source.entity.metricThresholds,
      matchesMeta t m = true → thresholdKey t = thresholdKey dupThreshold1 →
      thrPair t = thrPair dupThreshold1) ∧
    (∃ t', dupConfig.source.entity.metricThresholds.find?
        (fun t => matchesMeta t dupMeta) = some t' ∧
      t' ∈ (createContainerYaml dupConfig dupContainer).source.entity.metricThresholds ∧
      ∀ u ∈ (createContainerYaml dupConfig dupContainer).source.entity.metricThresholds,
        thrPair u = thrPair dupThreshold1 → u = t') :=
  ⟨by decide, dupMeta_mem, by decide, by decide,
    claim_C3_amended dupConfig dupContainer dupThreshold1 dupMeta (by decide)
      dupMeta_mem (by decide) (by decide)⟩

/-- C4: a global threshold whose pair is referenced by no `GraphMeta`
directly under the container's own graphs never appears in that container's
derived threshold list. -/
theorem claim_C4_scope (cfg : Config) (c : Container) (t : MetricThreshold)
    (ht : t ∈ cfg.source.entity.metricThresholds)
    (h : ∀ m ∈ oneLevelMetas c,
      ¬(t.entityID = m.entityID ∧ t.metricID = m.metricID)) :
    t ∉ (createContainerYaml cfg c).source.entity.metricThresholds := by
  intro hmem
  have hmem' : t ∈ (uniqueThresholds cfg c).map Prod.snd := hmem
  rcases List.mem_map.mp hmem' with ⟨p, hp, hpt⟩
  obtain ⟨_, _, m, hm, hmatch⟩ := mem_uniqueThresholds cfg c p hp
  have hpq := (matchesMeta_iff p.2 m).mp hmatch
  rw [hpt] at hpq
  simp only [thrPair, metaPair, Prod.mk.injEq] at hpq
  exact h m hm ⟨hpq.1, hpq.2⟩

/-- C4 witness: a threshold keyed to `(e2, m2)`, which no metadata entry of
the sample container references, is absent from its derived
configuration. -/
theorem claim_C4_scope_witness :
    smpThreshold2 ∈ smpConfig.source.entity.metricThresholds ∧
    (∀ m ∈ oneLevelMetas smpContainer,
      ¬(smpThreshold2.entityID = m.entityID ∧ smpThreshold2.metricID = m.metricID)) ∧
    smpThreshold2 ∉
      (createContainerYaml smpConfig smpContainer).source.entity.metricThresholds :=
  ⟨by decide, by decide,
    claim_C4_scope smpConfig smpContainer smpThreshold2 (by decide) (by decide)⟩

/-! ## Claims C5-C7, C10: the traversal -/

/-- C5: with every filesystem operation succeeding, materializing a
container tree performs exactly the depth-first pre-order trace
`preTraceContainers` (each container's directory creation and `config.yaml`
write strictly before any of its descendants' events, siblings in input
order), and it performs exactly one directory creation and one file write
per container of the input tree. -/
theorem claim_C5_preorder (b : Path) (cs : List Container) (cfg : Config) :
    createStructureAndYaml allOk b cs cfg = (preTraceContainers b cs cfg, none) ∧
    (preTraceContainers b cs cfg).countP isMkdirEvent = countContainers cs ∧
    (preTraceContainers b cs cfg).countP isWriteEvent = countContainers cs := by
  refine ⟨?_, (countP_preTraceContainers b cs cfg).1,
    (countP_preTraceContainers b cs cfg).2⟩
  rw [createStructureAndYaml_eq_split, splitAtFailure_allOk]

/-- C6: every configuration written during a run, under any environment,
carries `DefaultConfig` and `Entity.{Name, ID, Ignore, Whitelist}` equal to
the global configuration's; only `Entity.MetricThresholds` is recomputed. -/
theorem claim_C6_passthrough (env : FsEnv) (b : Path) (cs : List Container)
    (cfg : Config) (p : Path) (c' : Config)
    (h : FsEvent.write p c' ∈ (createStructureAndYaml env b cs cfg).1) :
    c'.source.defaultConfig = cfg.source.defaultConfig ∧
    c'.source.entity.name = cfg.source.entity.name ∧
    c'.source.entity.id = cfg.source.entity.id ∧
    c'.source.entity.ignore = cfg.source.entity.ignore ∧
    c'.source.entity.whitelist = cfg.source.entity.whitelist := by
  rw [createStructureAndYaml_eq_split] at h
  have h' := mem_splitAtFailure_fst _ _ _ h
  obtain ⟨cc, rfl⟩ := write_mem_preTraceContainers b cs cfg p c' h'
  exact ⟨rfl, rfl, rfl, rfl, rfl⟩

theorem c6_witness_mem :
    FsEvent.write ["base", "A", "config.yaml"]
        (createContainerYaml smpConfig smpContainer) ∈
      (createStructureAndYaml allOk ["base"] [smpContainer] smpConfig).1 := by
  rw [createStructureAndYaml_eq_split, splitAtFailure_allOk]
  have hA : joinPath ["base"] (sanitizeFolderName "A") = ["base", "A"] := by
    decide
  simp [preTraceContainers, preTraceContainer, preTraceGraphs, preTraceMetas,
    smpContainer, smpMeta, hA]

/-- C6 witness: the pass-through claim evaluated at the configuration
written for the sample container. -/
theorem claim_C6_witness :
    FsEvent.write ["base", "A", "config.yaml"]
        (createContainerYaml smpConfig smpContainer) ∈
      (createStructureAndYaml allOk ["base"] [smpContainer] smpConfig).1 ∧
    ((createContainerYaml smpConfig smpContainer).source.defaultConfig =
        smpConfig.source.defaultConfig ∧
      (createContainerYaml smpConfig smpContainer).source.entity.name =
        smpConfig.source.entity.name ∧
      (createContainerYaml smpConfig smpContainer).source.entity.id =
        smpConfig.source.entity.id ∧
      (createContainerYaml smpConfig smpContainer).source.entity.ignore =
        smpConfig.source.entity.ignore ∧
      (createContainerYaml smpConfig smpContainer).source.entity.whitelist =
        smpConfig.source.entity.whitelist) :=
  ⟨c6_witness_mem,
    claim_C6_passthrough allOk ["base"] [smpContainer] smpConfig _ _
      c6_witness_mem⟩

/-- C7: the materializer fails fast.  If a run aborts with an error, the
events it performed are exactly the pre-order prefix strictly before the
first failing operation (so no operation is attempted for any later sibling
or any would-be descendant: those all lie after the failing event in the
planned trace), every performed event succeeded, and the error is built
from the failing event's path (or container name) and the underlying cause.
The performed-event list contains only creation and write events — nothing
is removed or altered afterwards (no rollback). -/
theorem claim_C7_failfast (env : FsEnv) (b : Path) (cs : List Container)
    (cfg : Config) (evs : List FsEvent) (err : FsError)
    (h : createStructureAndYaml env b cs cfg = (evs, some err)) :
    ∃ failEv rest cause,
      preTraceContainers b cs cfg = evs ++ failEv :: rest ∧
      (∀ ev ∈ evs, env ev = none) ∧
      env failEv = some cause ∧ err = mkFsError failEv cause := by
  rw [createStructureAndYaml_eq_split] at h
  exact splitAtFailure_some env _ evs err h

theorem c7_run_eq :
    createStructureAndYaml failEnv ["base"] [cA, cB] smpConfig =
      (c7evs, some (FsError.dirError ["base", "B"] "disk full")) := by
  rw [createStructureAndYaml_eq_split]
  have hA : joinPath ["base"] (sanitizeFolderName "A") = ["base", "A"] := by
    decide
  have hB : joinPath ["base"] (sanitizeFolderName "B") = ["base", "B"] := by
    decide
  simp [preTraceContainers, preTraceContainer, preTraceGraphs, preTraceMetas,
    cA, cB, hA, hB, splitAtFailure, failEnv, mkFsError, c7evs]

/-- C7 witness: under `failEnv` (directory creation for `base/B` fails), the
run over `[cA, cB]` performs exactly `cA`'s three events and aborts with an
error naming `base/B` and the cause; nothing for `cB` or its descendant is
attempted. -/
theorem claim_C7_witness :
    ∃ failEv rest cause,
      preTraceContainers ["base"] [cA, cB] smpConfig = c7evs ++ failEv :: rest ∧
      (∀ ev ∈ c7evs, failEnv ev = none) ∧
      failEnv failEv = some cause ∧
      FsError.dirError ["base", "B"] "disk full" = mkFsError failEv cause :=
  claim_C7_failfast failEnv ["base"] [cA, cB] smpConfig c7evs
    (FsError.dirError ["base", "B"] "disk full") c7_run_eq

/-- C10: a container whose name sanitizes to the empty string is assigned
the parent's own path: its directory-creation call targets the parent
directory itself (creating no new directory), its configuration is written
to the parent directory's own `config.yaml` (overwriting the one already
written there), and its descendants are rooted at the parent directory,
flattening its subtree into the parent. -/
theorem claim_C10_empty_name (b : Path) (pid name : String) (gs : List Graph)
    (cfg : Config) (h : sanitizeFolderName name = "") :
    joinPath b (sanitizeFolderName name) = b ∧
    createStructureAndYaml allOk b [.mk pid name gs] cfg =
      (FsEvent.mkdir b ::
        FsEvent.marshal name (createContainerYaml cfg (.mk pid name gs)) ::
        FsEvent.write (b ++ ["config.yaml"])
          (createContainerYaml cfg (.mk pid name gs)) ::
        preTraceGraphs b gs cfg, none) := by
  have hj : joinPath b (sanitizeFolderName name) = b := by
    rw [h, joinPath]
    simp
  refine ⟨hj, ?_⟩
  rw [createStructureAndYaml_eq_split, splitAtFailure_allOk, preTraceContainers,
    preTraceContainer, hj, preTraceContainers]
  simp

/-- C10 witness: the empty-named container evaluated concretely: its events
target the parent path `["base"]` and the parent's `config.yaml`. -/
theorem claim_C10_witness :
    joinPath ["base"] (sanitizeFolderName "") = ["base"] ∧
    createStructureAndYaml allOk ["base"] [emptyNameContainer] smpConfig =
      (FsEvent.mkdir ["base"] ::
        FsEvent.marshal "" (createContainerYaml smpConfig emptyNameContainer) ::
        FsEvent.write (["base"] ++ ["config.yaml"])
          (createContainerYaml smpConfig emptyNameContainer) ::
        preTraceGraphs ["base"] [] smpConfig, none) :=
  claim_C10_empty_name ["base"] "p" "" [] smpConfig (by decide)

/-! ## Claims C8-C9: the sanitizer -/

/-- C8: for every input string, `sanitizeFolderName` returns a string of
the same length obtained by replacing exactly the reserved characters by
`_` (pointwise substitution, all other characters — Unicode included —
unchanged; in particular it never fails); and it never collapses two inputs
that differ at a position holding non-reserved characters on both sides. -/
theorem claim_C8_sanitize (s t : String) :
    (sanitizeFolderName s).length = s.length ∧
    (sanitizeFolderName s).data =
      s.data.map (fun c => if isReservedChar c then '_' else c) ∧
    (∀ i : Nat, ∀ hi : i < s.data.length, ∀ hj : i < t.data.length,
      s.data[i] ≠ t.data[i] → isReservedChar s.data[i] = false →
      isReservedChar t.data[i] = false →
      sanitizeFolderName s ≠ sanitizeFolderName t) := by
  refine ⟨sanitizeFolderName_length s, ?_, ?_⟩
  · rw [sanitizeFolderName_data]
    exact List.map_congr_left fun c _ => sanitizeChar_eq c
  · intro i hi hj hne hsr htr heq
    have hd := congrArg String.data heq
    rw [sanitizeFolderName_data, sanitizeFolderName_data] at hd
    have hib : i < (s.data.map sanitizeChar).length := by
      rw [List.length_map]
      exact hi
    have hgi := List.getElem_of_eq hd hib
    rw [List.getElem_map, List.getElem_map] at hgi
    rw [sanitizeChar_eq, sanitizeChar_eq, hsr, htr] at hgi
    simp only [Bool.false_eq_true, if_false] at hgi
    exact hne hgi

/-- C8 witness: the substitution and length parts evaluated at the
all-reserved input `"?"` (which sanitizes to `"_"`), and the non-collapse
part at `"a"` and `"b"`, which differ at position `0` outside the reserved
set. -/
theorem claim_C8_witness :
    (sanitizeFolderName "?").length = ("?" : String).length ∧
    (sanitizeFolderName "?").data =
      ("?" : String).data.map (fun c => if isReservedChar c then '_' else c) ∧
    sanitizeFolderName "a" ≠ sanitizeFolderName "b" :=
  ⟨(claim_C8_sanitize "?" "?").1, (claim_C8_sanitize "?" "?").2.1,
    (claim_C8_sanitize "a" "b").2.2 0 (by decide) (by decide) (by decide)
      (by decide) (by decide)⟩

/-- C9: sanitization is idempotent and output-clean: sanitizing twice equals
sanitizing once, the output contains no reserved character, and the length
is preserved. -/
theorem claim_C9_idempotent (s : String) :
    sanitizeFolderName (sanitizeFolderName s) = sanitizeFolderName s ∧
    (sanitizeFolderName s).data.all (fun c => !isReservedChar c) = true ∧
    (sanitizeFolderName s).length = s.length := by
  refine ⟨?_, ?_, sanitizeFolderName_length s⟩
  · apply String.ext
    rw [sanitizeFolderName_data, sanitizeFolderName_data, List.map_map]
    apply List.map_congr_left
    intro c _
    simp only [Function.comp_apply]
    exact sanitizeChar_idem c
  · rw [sanitizeFolderName_data, List.all_eq_true]
    intro c hc
    rcases List.mem_map.mp hc with ⟨a, _, rfl⟩
    simp [sanitizeChar_not_reserved]

end AmexTest
